import Mathlib

/-!
Shallow embedding of `spotify_player/src/state.rs`: the in-memory state
container and track presentation engine of a terminal music-player client.

Rust `String` values are modelled as Lean `String` (track names, URIs, …);
where character-level reasoning is needed (display width, lexicographic
comparison) we work on the list of characters (`String.data`), which matches
Rust's `str::chars()` iteration.  Rust's byte-wise UTF-8 `String` ordering
coincides with codepoint-wise lexicographic ordering, because UTF-8 encoding
preserves codepoint order and is a prefix-free code; the comparator below
therefore compares codepoints.

Machine integers: `duration: u32` and `added_at: u64` are modelled as `Nat`;
the only place where overflow/wrapping matters is the `timestamp() as u64`
cast in the playlist-item conversion, modelled with an explicit `% 2^64`.

The Unicode width table lives in the external `unicode-width` crate, outside
this repository, so the truncation code is parametrised by a width oracle
`wc : Char → Option Nat` (`UnicodeWidthChar::width`); the string width
`UnicodeWidthStr::width` is its sum with `none` counted as `0`, exactly as in
that crate.
-/

namespace SpotifyPlayer

/-- `state.rs` `struct Artist`: identifier and URI are optional, name is a
plain string. -/
structure Artist where
  id : Option String
  uri : Option String
  name : String
deriving Repr, DecidableEq

/-- `state.rs` `struct Album`. -/
structure Album where
  id : Option String
  uri : Option String
  name : String
deriving Repr, DecidableEq

/-- Rust `Album::default()` from `#[derive(Default)]`: `None` ids and the
empty name. -/
def Album.mkDefault : Album :=
  { id := none, uri := none, name := "" }

/-- `state.rs` `struct Track`: the canonical track model. `duration` is the
`u32` millisecond duration, `added_at` the `u64` seconds-since-epoch with `0`
as the "unknown" sentinel. -/
structure Track where
  id : Option String
  uri : String
  name : String
  artists : List Artist
  album : Album
  duration : Nat
  added_at : Nat
deriving Repr, DecidableEq

/-- `state.rs` `enum ContextSortOrder`. -/
inductive ContextSortOrder where
  | AddedAt
  | TrackName
  | Album
  | Artists
  | Duration
deriving Repr, DecidableEq

/-- `state.rs` `enum EventState`. -/
inductive EventState where
  | Default
  | ContextSearch
  | PlaylistSwitch
deriving Repr, DecidableEq

/-- `state.rs` `struct ContextSearchState`: the optional active query and the
filtered track list. -/
structure ContextSearchState where
  query : Option String
  tracks : List Track
deriving Repr, DecidableEq

/-- The closed set of context kinds declared by the upstream client library
(`rspotify::senum::Type`), modelled at the interface boundary. -/
inductive SenumType where
  | artist
  | album
  | appUser
  | user
  | playlist
  | track
  | tvShow
  | episode
  | collection
deriving Repr, DecidableEq

/-- Upstream playback-context object: carries a declared type tag
(`rspotify` `Context`, interface boundary model; only the `_type` field is
read by this core). -/
structure Context where
  _type : SenumType
deriving Repr, DecidableEq

/-- Upstream currently-playing payload (`rspotify`
`CurrentlyPlaybackContext`): the nested context object is optional. -/
structure CurrentlyPlaybackContext where
  context : Option Context
deriving Repr, DecidableEq

/-- Upstream loaded-playlist record (`rspotify` `FullPlaylist`); only the
`name` field is read by this core. -/
structure FullPlaylist where
  name : String
deriving Repr, DecidableEq

/-- Upstream loaded-album record (`rspotify` `FullAlbum`); only the `name`
field is read by this core. -/
structure FullAlbum where
  name : String
deriving Repr, DecidableEq

/-- `state.rs` `struct State`.  Fields whose types this core never inspects
(configuration handles, timestamps, devices, sidebar playlists, the key-prefix
buffer and the two UI cursor states) are abstract type parameters. -/
structure State (Cfg Km Time Dev SPl KeySeq TblSt LstSt : Type) where
  app_config : Cfg
  keymap_config : Km
  is_running : Bool
  auth_token_expires_at : Time
  devices : List Dev
  current_playback_context : Option CurrentlyPlaybackContext
  current_playlist : Option FullPlaylist
  current_album : Option FullAlbum
  current_playlists : List SPl
  current_context_tracks : List Track
  current_key_prefix : KeySeq
  current_event_state : EventState
  context_search_state : ContextSearchState
  context_tracks_table_ui_state : TblSt
  playlists_list_ui_state : LstSt
  shortcuts_help_ui_state : Bool

/-- `Track::get_artists_info`: joins the artist names with `","`, in list
order, no trailing separator (Rust `Vec::join`). -/
def Track.get_artists_info (t : Track) : String :=
  String.intercalate "," (t.artists.map (fun a => a.name))

/-- `Track::get_basic_info`: `format!("{} {} {}", name, artists_info,
album.name)`. -/
def Track.get_basic_info (t : Track) : String :=
  t.name ++ " " ++ t.get_artists_info ++ " " ++ t.album.name

/-- Three-way comparison on `Nat`, the model of Rust `u32::cmp` /
`u64::cmp`. -/
def natCmp (a b : Nat) : Ordering :=
  if a < b then Ordering.lt else if a = b then Ordering.eq else Ordering.gt

/-- Codepoint-wise lexicographic three-way comparison on character lists: the
model of Rust `String::cmp` (byte-wise UTF-8 order, which equals codepoint
order). -/
def lexCmp : List Char → List Char → Ordering
  | [], [] => Ordering.eq
  | [], _ :: _ => Ordering.lt
  | _ :: _, [] => Ordering.gt
  | a :: as, b :: bs =>
    match natCmp a.toNat b.toNat with
    | Ordering.eq => lexCmp as bs
    | o => o

/-- Rust `String::cmp` on the two strings' character sequences. -/
def strCmp (s t : String) : Ordering :=
  lexCmp s.data t.data

/-- `ContextSortOrder::compare`: the selected sort key comparison, arm for
arm from the source `match`. -/
def ContextSortOrder.compare : ContextSortOrder → Track → Track → Ordering
  | ContextSortOrder.AddedAt, x, y => natCmp x.added_at y.added_at
  | ContextSortOrder.TrackName, x, y => strCmp x.name y.name
  | ContextSortOrder.Album, x, y => strCmp x.album.name y.album.name
  | ContextSortOrder.Duration, x, y => natCmp x.duration y.duration
  | ContextSortOrder.Artists, x, y =>
      strCmp x.get_artists_info y.get_artists_info

/-- The boolean "comes before or ties" relation induced by a comparator, as
used to model Rust's stable `slice::sort_by`: `x` may precede `y` exactly when
the comparator does not answer `Greater`. -/
def sortLe (o : ContextSortOrder) (x y : Track) : Bool :=
  match o.compare x y with
  | Ordering.gt => false
  | _ => true

/-- `State::sort_context_tracks`: Rust `Vec::sort_by` is a stable sort by the
comparator; with a total-preorder comparator a stable sort has a unique
result, so `List.mergeSort` (stable) is an exact model.  The Rust method
mutates in place; here the updated `State` is returned. -/
def State.sort_context_tracks {Cfg Km Time Dev SPl KeySeq TblSt LstSt : Type}
    (s : State Cfg Km Time Dev SPl KeySeq TblSt LstSt)
    (sort_oder : ContextSortOrder) : State Cfg Km Time Dev SPl KeySeq TblSt LstSt :=
  { s with
    current_context_tracks :=
      s.current_context_tracks.mergeSort (fun x y => sortLe sort_oder x y) }

/-- `State::get_context_type`: `None` when no playback context is loaded,
otherwise the declared type of the optional context object. -/
def State.get_context_type {Cfg Km Time Dev SPl KeySeq TblSt LstSt : Type}
    (s : State Cfg Km Time Dev SPl KeySeq TblSt LstSt) : Option SenumType :=
  match s.current_playback_context with
  | none => none
  | some playback_context => playback_context.context.map (fun c => c._type)

/-- `State::get_context_description`, string for string from the source. -/
def State.get_context_description {Cfg Km Time Dev SPl KeySeq TblSt LstSt : Type}
    (s : State Cfg Km Time Dev SPl KeySeq TblSt LstSt) : String :=
  match s.get_context_type with
  | none => "Cannot infer the playing context from current playback"
  | some ty =>
    match ty with
    | SenumType.album =>
        "Album: " ++
          (match s.current_album with
           | none => "loading..."
           | some album => album.name)
    | SenumType.playlist =>
        "Playlist: " ++
          (match s.current_playlist with
           | none => "loading..."
           | some playlist => playlist.name)
    | _ => "Unknown context type"

/-- `State::get_context_filtered_tracks`: the filtered list while a search
query is active, else the full context list.  (The Rust function collects
`Vec<&Track>`; the borrowed view is modelled by the list itself.) -/
def State.get_context_filtered_tracks {Cfg Km Time Dev SPl KeySeq TblSt LstSt : Type}
    (s : State Cfg Km Time Dev SPl KeySeq TblSt LstSt) : List Track :=
  if s.context_search_state.query.isSome then
    s.context_search_state.tracks
  else
    s.current_context_tracks

/-- Upstream nested artist record of a track payload (`rspotify`
`SimplifiedArtist`, interface boundary model). -/
structure SimplifiedArtist where
  id : Option String
  uri : Option String
  name : String
deriving Repr, DecidableEq

/-- Upstream nested album record of a track payload (`rspotify`
`SimplifiedAlbum`, interface boundary model). -/
structure SimplifiedAlbum where
  id : Option String
  uri : Option String
  name : String
deriving Repr, DecidableEq

/-- Upstream full-track payload embedded in a playlist item (`rspotify`
`FullTrack`, interface boundary model: the fields this core reads). -/
structure FullTrack where
  id : Option String
  uri : String
  name : String
  artists : List SimplifiedArtist
  album : SimplifiedAlbum
  duration_ms : Nat
deriving Repr, DecidableEq

/-- Upstream playlist-item record (`rspotify` `PlaylistTrack`): the embedded
track payload is optional; `added_at_timestamp` models
`added_at.timestamp() : i64`. -/
structure PlaylistTrack where
  track : Option FullTrack
  added_at_timestamp : Int
deriving Repr, DecidableEq

/-- Upstream simplified-track record (`rspotify` `SimplifiedTrack`): no album
and no add-time data. -/
structure SimplifiedTrack where
  id : Option String
  uri : String
  name : String
  artists : List SimplifiedArtist
  duration_ms : Nat
deriving Repr, DecidableEq

/-- Outcome of running a Rust conversion: a normal return, a process-aborting
panic (e.g. `Option::unwrap` on `None`), or — unused by this source, present
to state the spec's demand — a distinct recoverable error value. -/
inductive ConvResult (α : Type) where
  | ok (value : α) : ConvResult α
  | panicked (msg : String) : ConvResult α
  | err (msg : String) : ConvResult α
deriving Repr, DecidableEq

/-- Whether a conversion outcome is the distinct recoverable error. -/
def ConvResult.isErr {α : Type} : ConvResult α → Bool
  | ConvResult.err _ => true
  | _ => false

/-- `impl From<playlist::PlaylistTrack> for Track`: `t.track.unwrap()` panics
when the payload is absent; otherwise the nested fields are mapped across.
`timestamp() as u64` is the two's-complement `i64 → u64` cast, i.e. reduction
mod `2^64`. -/
def Track.from_playlist_track (t : PlaylistTrack) : ConvResult Track :=
  match t.track with
  | none =>
      ConvResult.panicked "called Option::unwrap() on a None value"
  | some track =>
      ConvResult.ok
        { id := track.id
          uri := track.uri
          name := track.name
          artists := track.artists.map (fun a =>
            { id := a.id, uri := a.uri, name := a.name })
          album :=
            { id := track.album.id
              uri := track.album.uri
              name := track.album.name }
          duration := track.duration_ms
          added_at := (t.added_at_timestamp % (2 ^ 64 : Int)).toNat }

/-- `impl From<track::SimplifiedTrack> for Track`: no album / add-time data;
the album is `Album::default()` and `added_at` the `0` sentinel. -/
def Track.from_simplified_track (track : SimplifiedTrack) : Track :=
  { id := track.id
    uri := track.uri
    name := track.name
    artists := track.artists.map (fun a =>
      { id := a.id, uri := a.uri, name := a.name })
    album := Album.mkDefault
    duration := track.duration_ms
    added_at := 0 }

/-- `UnicodeWidthStr::width` of the `unicode-width` crate: the sum of the
per-character widths, counting characters without a width (control
characters) as `0`. -/
def strWidth (wc : Char → Option Nat) (s : List Char) : Nat :=
  (s.map (fun c => (wc c).getD 0)).sum

/-- The fold body of `truncate_string`: the accumulator is the collected
characters and their accumulated width; a character of width `w`
(`width(c).unwrap_or(2)`) is appended only when `cw + w + 3 ≤ max_len`. -/
def truncAux (wc : Char → Option Nat) (max_len : Nat)
    (acc : List Char × Nat) (c : Char) : List Char × Nat :=
  let w := (wc c).getD 2
  if acc.2 + w + 3 > max_len then acc
  else (acc.1 ++ [c], acc.2 + w)

/-- `truncate_string` from `state.rs`, parametrised by the width oracle `wc`
of the external `unicode-width` crate; the string is its character list. -/
def truncate_string (wc : Char → Option Nat) (s : List Char)
    (max_len : Nat) : List Char :=
  let len := strWidth wc s
  if len > max_len then
    (s.foldl (truncAux wc max_len) ([], 0)).1 ++ ['.', '.', '.']
  else s

/-- Spec-side notion (§4.2): strict lexicographic order on character
sequences, by codepoint.  `[] < c :: cs`; otherwise compare heads, recurse on
equal heads. -/
inductive LexLt : List Char → List Char → Prop where
  | nil {b : Char} {bs : List Char} : LexLt [] (b :: bs)
  | head {a b : Char} {as bs : List Char} :
      a.toNat < b.toNat → LexLt (a :: as) (b :: bs)
  | tail {a : Char} {as bs : List Char} :
      LexLt as bs → LexLt (a :: as) (a :: bs)

/-- Spec-side notion (§4.2): the "ascending on its key" order of each sort
criterion — numeric `≤` on `added_at` and `duration`, lexicographic
(strictly-before-or-equal) on the name, the album name, and the artists-info
string. -/
def ascendingOnKey : ContextSortOrder → Track → Track → Prop
  | ContextSortOrder.AddedAt, x, y => x.added_at ≤ y.added_at
  | ContextSortOrder.TrackName, x, y =>
      LexLt x.name.data y.name.data ∨ x.name = y.name
  | ContextSortOrder.Album, x, y =>
      LexLt x.album.name.data y.album.name.data ∨ x.album.name = y.album.name
  | ContextSortOrder.Duration, x, y => x.duration ≤ y.duration
  | ContextSortOrder.Artists, x, y =>
      LexLt x.get_artists_info.data y.get_artists_info.data ∨
        x.get_artists_info = y.get_artists_info

/-- Modelled from the spec (§4.5): a concrete instance of the external
Unicode width table, covering the characters exercised by the witnesses
below exactly as the `unicode-width` crate classifies them — ASCII control
characters have no width, printable ASCII has width 1, CJK unified
ideographs (`U+4E00`–`U+9FFF`, East-Asian Wide) have width 2. -/
def sampleWidth (c : Char) : Option Nat :=
  if c.toNat < 32 then none
  else if c.toNat < 127 then some 1
  else if 0x4E00 ≤ c.toNat ∧ c.toNat ≤ 0x9FFF then some 2
  else none

/-- The truncation input `"ab你cddd"` exhibiting the mid-string skip of the
`truncate_string` fold. -/
def bugInput : List Char :=
  ['a', 'b', '你', 'c', 'd', 'd', 'd']

/-- A playlist item whose embedded track payload is absent. -/
def noPayloadItem : PlaylistTrack :=
  { track := none, added_at_timestamp := 0 }

/-- A concrete embedded full-track payload. -/
def sampleFullTrack : FullTrack :=
  { id := some "id0"
    uri := "spotify:track:0"
    name := "song"
    artists := [{ id := none, uri := none, name := "artist0" }]
    album := { id := none, uri := none, name := "album0" }
    duration_ms := 1000 }

/-- A playlist item carrying `sampleFullTrack`. -/
def samplePayloadItem : PlaylistTrack :=
  { track := some sampleFullTrack, added_at_timestamp := 42 }

/-- A concrete canonical track used by the sample states. -/
def sampleTrack : Track :=
  { id := some "id1"
    uri := "spotify:track:1"
    name := "t1"
    artists := []
    album := Album.mkDefault
    duration := 100
    added_at := 7 }

/-- A second concrete canonical track. -/
def sampleTrack2 : Track :=
  { id := none
    uri := "spotify:track:2"
    name := "t2"
    artists := []
    album := Album.mkDefault
    duration := 50
    added_at := 3 }

/-- The opaque fields of the sample states are instantiated at `Unit`. -/
def StateU : Type :=
  State Unit Unit Unit Unit Unit Unit Unit Unit

/-- A sample state with an active search query: the filtered list holds
`sampleTrack2`, the full context list both tracks. -/
def searchingState : StateU :=
  { app_config := ()
    keymap_config := ()
    is_running := true
    auth_token_expires_at := ()
    devices := []
    current_playback_context := none
    current_playlist := none
    current_album := none
    current_playlists := []
    current_context_tracks := [sampleTrack, sampleTrack2]
    current_key_prefix := ()
    current_event_state := EventState.Default
    context_search_state := { query := some "t2", tracks := [sampleTrack2] }
    context_tracks_table_ui_state := ()
    playlists_list_ui_state := ()
    shortcuts_help_ui_state := false }

/-- A sample state playing an album context whose album is loaded and named
`"X"`, with no active search query. -/
def albumState : StateU :=
  { app_config := ()
    keymap_config := ()
    is_running := true
    auth_token_expires_at := ()
    devices := []
    current_playback_context :=
      some { context := some { _type := SenumType.album } }
    current_playlist := none
    current_album := some { name := "X" }
    current_playlists := []
    current_context_tracks := [sampleTrack2, sampleTrack]
    current_key_prefix := ()
    current_event_state := EventState.Default
    context_search_state := { query := none, tracks := [] }
    context_tracks_table_ui_state := ()
    playlists_list_ui_state := ()
    shortcuts_help_ui_state := false }

/-!
### Helper lemmas: comparators
-/

theorem charToNat_inj {a b : Char} (h : a.toNat = b.toNat) : a = b := by
  apply Char.eq_of_val_eq
  apply UInt32.eq_of_toBitVec_eq
  apply BitVec.eq_of_toNat_eq
  exact h

theorem strData_eq_iff {s t : String} : s.data = t.data ↔ s = t := by
  constructor
  · intro h
    cases s
    cases t
    exact congrArg String.mk h
  · intro h
    rw [h]

theorem natCmp_of_lt {a b : Nat} (h : a < b) : natCmp a b = Ordering.lt := by
  unfold natCmp
  rw [if_pos h]

theorem natCmp_of_eq {a b : Nat} (h : a = b) : natCmp a b = Ordering.eq := by
  unfold natCmp
  rw [if_neg (by omega), if_pos h]

theorem natCmp_of_gt {a b : Nat} (h : b < a) : natCmp a b = Ordering.gt := by
  unfold natCmp
  rw [if_neg (by omega), if_neg (by omega)]

theorem natCmp_eq_lt {a b : Nat} : natCmp a b = Ordering.lt ↔ a < b := by
  rcases Nat.lt_trichotomy a b with h | h | h
  · simp [natCmp_of_lt h, h]
  · rw [natCmp_of_eq h]
    simp
    omega
  · rw [natCmp_of_gt h]
    simp
    omega

theorem natCmp_eq_eq {a b : Nat} : natCmp a b = Ordering.eq ↔ a = b := by
  rcases Nat.lt_trichotomy a b with h | h | h
  · rw [natCmp_of_lt h]
    simp
    omega
  · rw [natCmp_of_eq h]
    simp [h]
  · rw [natCmp_of_gt h]
    simp
    omega

theorem natCmp_eq_gt {a b : Nat} : natCmp a b = Ordering.gt ↔ b < a := by
  rcases Nat.lt_trichotomy a b with h | h | h
  · rw [natCmp_of_lt h]
    simp
    omega
  · rw [natCmp_of_eq h]
    simp
    omega
  · simp [natCmp_of_gt h, h]

theorem natCmp_ne_gt {a b : Nat} : ¬ natCmp a b = Ordering.gt ↔ a ≤ b := by
  rw [natCmp_eq_gt]
  omega

theorem lexCmp_eq_eq : ∀ (a b : List Char), lexCmp a b = Ordering.eq ↔ a = b
  | [], [] => by simp [lexCmp]
  | [], _ :: _ => by simp [lexCmp]
  | _ :: _, [] => by simp [lexCmp]
  | a :: as, b :: bs => by
    rcases Nat.lt_trichotomy a.toNat b.toNat with h | h | h
    · have hne : a ≠ b := fun he => by rw [he] at h; omega
      simp [lexCmp, natCmp_of_lt h, hne]
    · have he : a = b := charToNat_inj h
      subst he
      simp [lexCmp, natCmp_of_eq rfl, lexCmp_eq_eq as bs]
    · have hne : a ≠ b := fun he => by rw [he] at h; omega
      simp [lexCmp, natCmp_of_gt h, hne]

theorem lexCmp_eq_lt : ∀ (a b : List Char), lexCmp a b = Ordering.lt ↔ LexLt a b
  | [], [] => by
    simp only [lexCmp]
    constructor
    · intro h
      cases h
    · intro h
      cases h
  | [], _ :: _ => by
    simp only [lexCmp]
    exact ⟨fun _ => LexLt.nil, fun _ => trivial⟩
  | _ :: _, [] => by
    simp only [lexCmp]
    constructor
    · intro h
      cases h
    · intro h
      cases h
  | a :: as, b :: bs => by
    rcases Nat.lt_trichotomy a.toNat b.toNat with h | h | h
    · simp only [lexCmp, natCmp_of_lt h]
      exact ⟨fun _ => LexLt.head h, fun _ => trivial⟩
    · have he : a = b := charToNat_inj h
      subst he
      simp only [lexCmp, natCmp_of_eq rfl]
      rw [lexCmp_eq_lt as bs]
      constructor
      · intro hl
        exact LexLt.tail hl
      · intro hl
        cases hl with
        | head hlt => exact absurd hlt (Nat.lt_irrefl _)
        | tail ht => exact ht
    · simp only [lexCmp, natCmp_of_gt h]
      constructor
      · intro hc
        cases hc
      · intro hl
        cases hl with
        | head hlt => exact absurd hlt (by omega)
        | tail ht => exact absurd h (Nat.lt_irrefl _)

theorem lexCmp_gt_iff_lt : ∀ (a b : List Char),
    lexCmp a b = Ordering.gt ↔ lexCmp b a = Ordering.lt
  | [], [] => by simp [lexCmp]
  | [], _ :: _ => by simp [lexCmp]
  | _ :: _, [] => by simp [lexCmp]
  | a :: as, b :: bs => by
    rcases Nat.lt_trichotomy a.toNat b.toNat with h | h | h
    · simp [lexCmp, natCmp_of_lt h, natCmp_of_gt h]
    · have he : a = b := charToNat_inj h
      subst he
      simp only [lexCmp, natCmp_of_eq rfl]
      exact lexCmp_gt_iff_lt as bs
    · simp [lexCmp, natCmp_of_gt h, natCmp_of_lt h]

theorem lexCmp_eq_gt {a b : List Char} :
    lexCmp a b = Ordering.gt ↔ LexLt b a := by
  rw [lexCmp_gt_iff_lt, lexCmp_eq_lt]

theorem lexCmp_ne_gt {a b : List Char} :
    ¬ lexCmp a b = Ordering.gt ↔ (LexLt a b ∨ a = b) := by
  constructor
  · intro h
    rcases hc : lexCmp a b with _ | _ | _
    · exact Or.inl ((lexCmp_eq_lt a b).mp hc)
    · exact Or.inr ((lexCmp_eq_eq a b).mp hc)
    · exact absurd hc h
  · intro h hgt
    have hlt : LexLt b a := lexCmp_eq_gt.mp hgt
    rcases h with h | rfl
    · have h1 : lexCmp a b = Ordering.lt := (lexCmp_eq_lt a b).mpr h
      rw [h1] at hgt
      cases hgt
    · have h1 : lexCmp a a = Ordering.eq := (lexCmp_eq_eq a a).mpr rfl
      rw [h1] at hgt
      cases hgt

theorem LexLt_trans {a b c : List Char} (h1 : LexLt a b) (h2 : LexLt b c) :
    LexLt a c := by
  induction h1 generalizing c with
  | nil =>
    cases h2 with
    | head _ => exact LexLt.nil
    | tail _ => exact LexLt.nil
  | head hab =>
    cases h2 with
    | head hbc => exact LexLt.head (Nat.lt_trans hab hbc)
    | tail _ => exact LexLt.head hab
  | tail _ ih =>
    cases h2 with
    | head hbc => exact LexLt.head hbc
    | tail ht => exact LexLt.tail (ih ht)

theorem strLexLe_trans {s t u : String}
    (h1 : LexLt s.data t.data ∨ s = t) (h2 : LexLt t.data u.data ∨ t = u) :
    LexLt s.data u.data ∨ s = u := by
  rcases h1 with h1 | rfl
  · rcases h2 with h2 | rfl
    · exact Or.inl (LexLt_trans h1 h2)
    · exact Or.inl h1
  · exact h2

/-!
### Helper lemmas: the sort relation
-/

theorem compare_gt_iff_lt (o : ContextSortOrder) (x y : Track) :
    o.compare x y = Ordering.gt ↔ o.compare y x = Ordering.lt := by
  cases o <;>
    simp only [ContextSortOrder.compare, strCmp] <;>
    first
      | rw [natCmp_eq_gt, natCmp_eq_lt]
      | rw [lexCmp_gt_iff_lt]

theorem compare_eq_comm (o : ContextSortOrder) (x y : Track) :
    o.compare x y = Ordering.eq ↔ o.compare y x = Ordering.eq := by
  cases o <;>
    simp only [ContextSortOrder.compare, strCmp] <;>
    first
      | (rw [natCmp_eq_eq, natCmp_eq_eq]; omega)
      | (rw [lexCmp_eq_eq, lexCmp_eq_eq]; exact eq_comm)

theorem compare_eq_trans (o : ContextSortOrder) {x y z : Track}
    (h1 : o.compare x y = Ordering.eq) (h2 : o.compare y z = Ordering.eq) :
    o.compare x z = Ordering.eq := by
  cases o <;>
    simp only [ContextSortOrder.compare, strCmp] at h1 h2 ⊢ <;>
    first
      | (rw [natCmp_eq_eq] at h1 h2 ⊢; omega)
      | (rw [lexCmp_eq_eq] at h1 h2 ⊢; exact h1.trans h2)

theorem compare_eq_le (o : ContextSortOrder) {x y : Track}
    (h : o.compare x y = Ordering.eq) : sortLe o x y = true := by
  unfold sortLe
  rw [h]

theorem sortLe_eq_true_iff (o : ContextSortOrder) (x y : Track) :
    sortLe o x y = true ↔ ¬ o.compare x y = Ordering.gt := by
  unfold sortLe
  rcases h : o.compare x y <;> simp

theorem sortLe_iff_ascending (o : ContextSortOrder) (x y : Track) :
    sortLe o x y = true ↔ ascendingOnKey o x y := by
  rw [sortLe_eq_true_iff]
  cases o <;> simp only [ContextSortOrder.compare, ascendingOnKey, strCmp] <;>
    first
      | rw [natCmp_ne_gt]
      | rw [lexCmp_ne_gt, strData_eq_iff]

theorem ascendingOnKey_trans (o : ContextSortOrder) (x y z : Track)
    (h1 : ascendingOnKey o x y) (h2 : ascendingOnKey o y z) :
    ascendingOnKey o x z := by
  cases o <;> simp only [ascendingOnKey] at h1 h2 ⊢
  case AddedAt => omega
  case TrackName => exact strLexLe_trans h1 h2
  case Album => exact strLexLe_trans h1 h2
  case Artists => exact strLexLe_trans h1 h2
  case Duration => omega

theorem sortLe_trans (o : ContextSortOrder) (x y z : Track)
    (h1 : sortLe o x y) (h2 : sortLe o y z) : sortLe o x z = true := by
  rw [sortLe_iff_ascending] at h1 h2 ⊢
  exact ascendingOnKey_trans o x y z h1 h2

theorem sortLe_total (o : ContextSortOrder) (x y : Track) :
    (sortLe o x y || sortLe o y x) = true := by
  by_cases h : o.compare x y = Ordering.gt
  · have h2 : o.compare y x = Ordering.lt := (compare_gt_iff_lt o x y).mp h
    have h3 : sortLe o y x = true := by
      unfold sortLe
      rw [h2]
    rw [h3]
    simp
  · have h3 : sortLe o x y = true := (sortLe_eq_true_iff o x y).mpr h
    rw [h3]
    simp

/-- Stability of a stable sort, phrased through `filter`: the subsequence of
elements satisfying a predicate that is pairwise-`le`-compatible is returned
unchanged by `mergeSort`. -/
theorem mergeSort_filter_eq {α : Type} (le : α → α → Bool)
    (htrans : ∀ (a b c : α), le a b → le b c → le a c)
    (htotal : ∀ (a b : α), le a b || le b a)
    (p : α → Bool) (l : List α)
    (hpair : (l.filter p).Pairwise (fun a b => le a b)) :
    (l.mergeSort le).filter p = l.filter p := by
  have hsub : (l.filter p).Sublist (l.mergeSort le) :=
    List.sublist_mergeSort htrans htotal hpair (List.filter_sublist l)
  have hsub2 : ((l.filter p).filter p).Sublist ((l.mergeSort le).filter p) :=
    hsub.filter p
  rw [List.filter_filter] at hsub2
  have hpp : (fun a => p a && p a) = p := funext (fun a => Bool.and_self (p a))
  rw [hpp] at hsub2
  have hperm : ((l.mergeSort le).filter p).Perm (l.filter p) :=
    (List.mergeSort_perm l le).filter p
  exact (hsub2.eq_of_length hperm.length_eq.symm).symm

/-!
### Helper lemmas: truncation
-/

theorem getD_zero_le_getD_two (o : Option Nat) : o.getD 0 ≤ o.getD 2 := by
  cases o <;> simp

theorem strWidth_append (wc : Char → Option Nat) (s t : List Char) :
    strWidth wc (s ++ t) = strWidth wc s + strWidth wc t := by
  simp [strWidth]

/-- Invariant of the `truncate_string` fold: if the accumulated characters
have real display width at most `cw` and `cw + 3 ≤ max_len`, the collected
prefix always leaves 3 columns of room. -/
theorem truncFold_width_le (wc : Char → Option Nat) (max_len : Nat) :
    ∀ (s cs : List Char) (cw : Nat),
      strWidth wc cs ≤ cw → cw + 3 ≤ max_len →
      strWidth wc (s.foldl (truncAux wc max_len) (cs, cw)).1 + 3 ≤ max_len := by
  intro s
  induction s with
  | nil =>
    intro cs cw h1 h2
    simp only [List.foldl_nil]
    omega
  | cons c s ih =>
    intro cs cw h1 h2
    simp only [List.foldl_cons, truncAux]
    by_cases hw : cw + (wc c).getD 2 + 3 > max_len
    · rw [if_pos hw]
      exact ih cs cw h1 h2
    · rw [if_neg hw]
      apply ih
      · rw [strWidth_append]
        have hc : strWidth wc [c] = (wc c).getD 0 := by simp [strWidth]
        rw [hc]
        have := getD_zero_le_getD_two (wc c)
        omega
      · omega

/-- The collected characters of the `truncate_string` fold extend the initial
accumulator by a subsequence of the input. -/
theorem truncFold_sublist (wc : Char → Option Nat) (max_len : Nat) :
    ∀ (s cs : List Char) (cw : Nat),
      ∃ ds, ds.Sublist s ∧
        (s.foldl (truncAux wc max_len) (cs, cw)).1 = cs ++ ds := by
  intro s
  induction s with
  | nil =>
    intro cs cw
    exact ⟨[], List.nil_sublist _, by simp⟩
  | cons c s ih =>
    intro cs cw
    simp only [List.foldl_cons, truncAux]
    by_cases hw : cw + (wc c).getD 2 + 3 > max_len
    · rw [if_pos hw]
      obtain ⟨ds, hds, heq⟩ := ih cs cw
      exact ⟨ds, hds.cons c, heq⟩
    · rw [if_neg hw]
      obtain ⟨ds, hds, heq⟩ := ih (cs ++ [c]) (cw + (wc c).getD 2)
      refine ⟨c :: ds, hds.cons₂ c, ?_⟩
      rw [heq, List.append_assoc]
      rfl

/-!
### Claims
-/

/-- Claim C1, counterexample: on a playlist item with an absent embedded
track payload the conversion does not signal a distinct conversion error —
it panics (aborts the process) via `Option::unwrap`, so the claim as stated
is false at this input. -/
theorem from_playlist_track_no_distinct_error :
    (Track.from_playlist_track noPayloadItem).isErr = false ∧
    Track.from_playlist_track noPayloadItem =
      ConvResult.panicked "called Option::unwrap() on a None value" :=
  ⟨rfl, rfl⟩

/-- Claim C1 (amended): converting an upstream playlist-item record, when
the item's embedded track payload is absent, panics (aborts the process
unconditionally via `Option::unwrap`) — it does not silently substitute a
default `Track`; when the payload is present the conversion succeeds and
maps the nested track, artist and album fields field-for-field. -/
theorem from_playlist_track_cases (t : PlaylistTrack) :
    (t.track = none →
      Track.from_playlist_track t =
        ConvResult.panicked "called Option::unwrap() on a None value") ∧
    (∀ tr, t.track = some tr →
      Track.from_playlist_track t =
        ConvResult.ok
          { id := tr.id
            uri := tr.uri
            name := tr.name
            artists := tr.artists.map (fun a =>
              { id := a.id, uri := a.uri, name := a.name })
            album :=
              { id := tr.album.id
                uri := tr.album.uri
                name := tr.album.name }
            duration := tr.duration_ms
            added_at := (t.added_at_timestamp % (2 ^ 64 : Int)).toNat }) := by
  constructor
  · intro h
    unfold Track.from_playlist_track
    rw [h]
  · intro tr h
    unfold Track.from_playlist_track
    rw [h]

/-- Claim C1, witness: the amended theorem applied to a concrete playlist
item whose payload is present. -/
theorem from_playlist_track_cases_witness :
    samplePayloadItem.track = some sampleFullTrack ∧
    Track.from_playlist_track samplePayloadItem =
      ConvResult.ok
        { id := some "id0"
          uri := "spotify:track:0"
          name := "song"
          artists := [{ id := none, uri := none, name := "artist0" }]
          album := { id := none, uri := none, name := "album0" }
          duration := 1000
          added_at := 42 } :=
  ⟨rfl, (from_playlist_track_cases samplePayloadItem).2 sampleFullTrack rfl⟩

/-- Claim C2: evaluation of `truncate_string` at the failing input
`"ab你cddd"` with `max_len = 6` (`'你'` is double-width).  The fold does not
stop at the first character that no longer fits: it skips `'你'` but then
appends the later narrow `'c'`, so the returned characters `"abc"` before the
ellipsis are not a prefix of the input — the longest fitting prefix is
`"ab"`, so the claimed result would be `"ab..."` while the code returns
`"abc..."`. -/
theorem truncate_string_skips_inside :
    truncate_string sampleWidth bugInput 6 = ['a', 'b', 'c', '.', '.', '.'] ∧
    bugInput = ['a', 'b', '你', 'c', 'd', 'd', 'd'] := by
  constructor
  · decide
  · rfl

/-- Claim C3, counterexample: for `max_len = 1` and input `"ab"` (display
width 2, exceeding the limit) the result is the bare ellipsis `"..."` of
width 3, which exceeds `max_len` — the claim's bound fails for
`max_len < 3`. -/
theorem truncate_string_width_exceeds :
    1 < strWidth sampleWidth (truncate_string sampleWidth ['a', 'b'] 1) ∧
    1 < strWidth sampleWidth ['a', 'b'] := by
  decide

/-- Claim C3 (amended): the string returned by `truncate_string` has
rendered width not exceeding `max_len` whenever `max_len ≥ 3` (for a width
oracle assigning `'.'` width 1, as Unicode does); and for every `max_len`,
whenever the input's width is already at most `max_len`, the input is
returned unchanged.  (For `max_len < 3` the returned bare ellipsis may
exceed the limit, as the counterexample shows.) -/
theorem truncate_string_width_le (wc : Char → Option Nat) (s : List Char)
    (max_len : Nat) :
    (3 ≤ max_len → wc '.' = some 1 →
      strWidth wc (truncate_string wc s max_len) ≤ max_len) ∧
    (strWidth wc s ≤ max_len → truncate_string wc s max_len = s) := by
  constructor
  · intro h3 hdot
    simp only [truncate_string]
    by_cases h : strWidth wc s > max_len
    · rw [if_pos h, strWidth_append]
      have hdots : strWidth wc ['.', '.', '.'] = 3 := by simp [strWidth, hdot]
      rw [hdots]
      exact truncFold_width_le wc max_len s [] 0 (by simp [strWidth]) (by omega)
    · rw [if_neg h]
      omega
  · intro hle
    simp only [truncate_string]
    rw [if_neg (by omega)]

/-- Claim C3, witness: the amended theorem at the spec's own example
`truncate_string("hello", 10)` — both conjuncts applied with their
hypotheses discharged concretely. -/
theorem truncate_string_width_le_witness :
    (3 : Nat) ≤ 10 ∧ sampleWidth '.' = some 1 ∧
    strWidth sampleWidth
        (truncate_string sampleWidth ['h', 'e', 'l', 'l', 'o'] 10) ≤ 10 ∧
    strWidth sampleWidth ['h', 'e', 'l', 'l', 'o'] ≤ 10 ∧
    truncate_string sampleWidth ['h', 'e', 'l', 'l', 'o'] 10 =
      ['h', 'e', 'l', 'l', 'o'] :=
  ⟨by decide, by decide,
    (truncate_string_width_le sampleWidth ['h', 'e', 'l', 'l', 'o'] 10).1
      (by decide) (by decide),
    by decide,
    (truncate_string_width_le sampleWidth ['h', 'e', 'l', 'l', 'o'] 10).2
      (by decide)⟩

/-- Claim C4: `truncate_string` is total — in this embedding it is a total
function by construction, mirroring the Rust source, which contains no
panicking operation (the only fallible lookup is guarded by `unwrap_or(2)`);
for every width oracle, input string and `max_len` (including the empty
string and `max_len < 3`) the result is either the input unchanged or a
subsequence of the input followed by the 3-character ellipsis. -/
theorem truncate_string_total (wc : Char → Option Nat) (s : List Char)
    (max_len : Nat) :
    truncate_string wc s max_len = s ∨
    ∃ cs, cs.Sublist s ∧
      truncate_string wc s max_len = cs ++ ['.', '.', '.'] := by
  simp only [truncate_string]
  by_cases h : strWidth wc s > max_len
  · rw [if_pos h]
    obtain ⟨ds, hds, heq⟩ := truncFold_sublist wc max_len s [] 0
    refine Or.inr ⟨ds, hds, ?_⟩
    rw [heq]
    simp
  · rw [if_neg h]
    exact Or.inl rfl

/-- Claim C5: `get_context_filtered_tracks` returns exactly the stored
search-filtered track list, in its stored order, whenever the search query
is `Some`, and exactly the full context track list, in its stored order,
whenever the query is `None`. -/
theorem get_context_filtered_tracks_cases
    {Cfg Km Time Dev SPl KeySeq TblSt LstSt : Type}
    (s : State Cfg Km Time Dev SPl KeySeq TblSt LstSt) :
    (∀ q, s.context_search_state.query = some q →
      s.get_context_filtered_tracks = s.context_search_state.tracks) ∧
    (s.context_search_state.query = none →
      s.get_context_filtered_tracks = s.current_context_tracks) := by
  constructor
  · intro q h
    unfold State.get_context_filtered_tracks
    rw [h]
    rfl
  · intro h
    unfold State.get_context_filtered_tracks
    rw [h]
    rfl

/-- Claim C5, witness: the theorem applied to the concrete searching
state. -/
theorem get_context_filtered_tracks_cases_witness :
    searchingState.context_search_state.query = some "t2" ∧
    searchingState.get_context_filtered_tracks = [sampleTrack2] :=
  ⟨rfl, (get_context_filtered_tracks_cases searchingState).1 "t2" rfl⟩

/-- Claim C6: sorting the context track list by any criterion is stable —
for every reference track `x`, the subsequence of tracks whose sort key
compares equal to `x`'s is left in its input order — and the resulting list
is ascending on the criterion's key (numeric on `added_at` and `duration`,
codepoint-lexicographic on the name, the album name and the artists-info
string). -/
theorem sort_context_tracks_stable_ascending
    {Cfg Km Time Dev SPl KeySeq TblSt LstSt : Type}
    (s : State Cfg Km Time Dev SPl KeySeq TblSt LstSt)
    (o : ContextSortOrder) (x : Track) :
    (s.sort_context_tracks o).current_context_tracks.filter
        (fun t => decide (o.compare t x = Ordering.eq)) =
      s.current_context_tracks.filter
        (fun t => decide (o.compare t x = Ordering.eq)) ∧
    (s.sort_context_tracks o).current_context_tracks.Pairwise
      (ascendingOnKey o) := by
  constructor
  · show (s.current_context_tracks.mergeSort
        (fun a b => sortLe o a b)).filter _ = _
    apply mergeSort_filter_eq (fun a b => sortLe o a b)
      (fun a b c => sortLe_trans o a b c) (fun a b => sortLe_total o a b)
    apply List.pairwise_of_forall_mem_list
    intro a ha b hb
    have ha2 : o.compare a x = Ordering.eq :=
      of_decide_eq_true (List.mem_filter.mp ha).2
    have hb2 : o.compare b x = Ordering.eq :=
      of_decide_eq_true (List.mem_filter.mp hb).2
    have hxb : o.compare x b = Ordering.eq := (compare_eq_comm o b x).mp hb2
    exact compare_eq_le o (compare_eq_trans o ha2 hxb)
  · show (s.current_context_tracks.mergeSort
        (fun a b => sortLe o a b)).Pairwise (ascendingOnKey o)
    have hs : (s.current_context_tracks.mergeSort
        (fun a b => sortLe o a b)).Pairwise (fun a b => sortLe o a b) :=
      List.sorted_mergeSort (fun a b c => sortLe_trans o a b c)
        (fun a b => sortLe_total o a b) s.current_context_tracks
    exact hs.imp (fun hab => (sortLe_iff_ascending o _ _).mp hab)

/-- Claim C7: sorting by `Duration` and then by `AddedAt` never crashes (in
this embedding both sorts are total functions) and yields a list with the
same multiset of `Track` elements, hence the same length, as the input. -/
theorem sort_duration_then_added_at_perm
    {Cfg Km Time Dev SPl KeySeq TblSt LstSt : Type}
    (s : State Cfg Km Time Dev SPl KeySeq TblSt LstSt) :
    (((s.sort_context_tracks ContextSortOrder.Duration).sort_context_tracks
          ContextSortOrder.AddedAt).current_context_tracks : Multiset Track) =
      (s.current_context_tracks : Multiset Track) ∧
    ((s.sort_context_tracks ContextSortOrder.Duration).sort_context_tracks
        ContextSortOrder.AddedAt).current_context_tracks.length =
      s.current_context_tracks.length := by
  have h1 : ((s.sort_context_tracks ContextSortOrder.Duration).sort_context_tracks
      ContextSortOrder.AddedAt).current_context_tracks.Perm
        s.current_context_tracks := by
    show ((s.current_context_tracks.mergeSort
        (fun a b => sortLe ContextSortOrder.Duration a b)).mergeSort
          (fun a b => sortLe ContextSortOrder.AddedAt a b)).Perm
      s.current_context_tracks
    exact (List.mergeSort_perm _ _).trans (List.mergeSort_perm _ _)
  exact ⟨Multiset.coe_eq_coe.mpr h1, h1.length_eq⟩

/-- Claim C8: `get_context_description` returns the fixed cannot-infer
message when the context type is undeterminable; `"Album: "` plus the album
name (or `"Album: loading..."`) for an album context; `"Playlist: "` plus
the playlist name (or `"Playlist: loading..."`) for a playlist context; and
the fixed unknown-context-type message for every other known type. -/
theorem get_context_description_cases
    {Cfg Km Time Dev SPl KeySeq TblSt LstSt : Type}
    (s : State Cfg Km Time Dev SPl KeySeq TblSt LstSt) :
    (s.get_context_type = none →
      s.get_context_description =
        "Cannot infer the playing context from current playback") ∧
    (s.get_context_type = some SenumType.album →
      (s.current_album = none →
        s.get_context_description = "Album: loading...") ∧
      (∀ a, s.current_album = some a →
        s.get_context_description = "Album: " ++ a.name)) ∧
    (s.get_context_type = some SenumType.playlist →
      (s.current_playlist = none →
        s.get_context_description = "Playlist: loading...") ∧
      (∀ p, s.current_playlist = some p →
        s.get_context_description = "Playlist: " ++ p.name)) ∧
    (∀ ty, s.get_context_type = some ty → ty ≠ SenumType.album →
      ty ≠ SenumType.playlist →
      s.get_context_description = "Unknown context type") := by
  refine ⟨?_, ?_, ?_, ?_⟩
  · intro h
    simp [State.get_context_description, h]
  · intro h
    constructor
    · intro ha
      simp [State.get_context_description, h, ha]
    · intro a ha
      simp [State.get_context_description, h, ha]
  · intro h
    constructor
    · intro hp
      simp [State.get_context_description, h, hp]
    · intro p hp
      simp [State.get_context_description, h, hp]
  · intro ty h h1 h2
    cases ty <;>
      first
        | exact absurd rfl h1
        | exact absurd rfl h2
        | simp [State.get_context_description, h]

/-- Claim C8, witness: the theorem applied to the concrete album-context
state whose loaded album is named `"X"`. -/
theorem get_context_description_cases_witness :
    albumState.get_context_type = some SenumType.album ∧
    albumState.current_album = some { name := "X" } ∧
    albumState.get_context_description = "Album: X" :=
  ⟨rfl, rfl,
    ((get_context_description_cases albumState).2.1 rfl).2 { name := "X" } rfl⟩

/-- Claim C9: converting an upstream simplified-track record preserves the
id (absence preserved as absence), uri, name, duration and the artist list
in exactly the input order without deduplication, synthesizes the default
album (no id, no uri, empty name) and sets the add-time to the `0`
sentinel. -/
theorem from_simplified_track_fields (track : SimplifiedTrack) :
    (Track.from_simplified_track track).id = track.id ∧
    (Track.from_simplified_track track).uri = track.uri ∧
    (Track.from_simplified_track track).name = track.name ∧
    (Track.from_simplified_track track).artists =
      track.artists.map (fun a =>
        { id := a.id, uri := a.uri, name := a.name }) ∧
    (Track.from_simplified_track track).album = Album.mkDefault ∧
    Album.mkDefault = { id := none, uri := none, name := "" } ∧
    (Track.from_simplified_track track).duration = track.duration_ms ∧
    (Track.from_simplified_track track).added_at = 0 :=
  ⟨rfl, rfl, rfl, rfl, rfl, rfl, rfl, rfl⟩

/-- Claim C10: `sort_context_tracks` changes only the
`current_context_tracks` field — every other field of `State`, in particular
`context_search_state` (so both its `query` and its previously computed
filtered `tracks`), is left unchanged. -/
theorem sort_context_tracks_frame
    {Cfg Km Time Dev SPl KeySeq TblSt LstSt : Type}
    (s : State Cfg Km Time Dev SPl KeySeq TblSt LstSt)
    (o : ContextSortOrder) :
    (s.sort_context_tracks o).app_config = s.app_config ∧
    (s.sort_context_tracks o).keymap_config = s.keymap_config ∧
    (s.sort_context_tracks o).is_running = s.is_running ∧
    (s.sort_context_tracks o).auth_token_expires_at =
      s.auth_token_expires_at ∧
    (s.sort_context_tracks o).devices = s.devices ∧
    (s.sort_context_tracks o).current_playback_context =
      s.current_playback_context ∧
    (s.sort_context_tracks o).current_playlist = s.current_playlist ∧
    (s.sort_context_tracks o).current_album = s.current_album ∧
    (s.sort_context_tracks o).current_playlists = s.current_playlists ∧
    State.current_key_prefix (s.sort_context_tracks o) =
      State.current_key_prefix s ∧
    (s.sort_context_tracks o).current_event_state = s.current_event_state ∧
    (s.sort_context_tracks o).context_search_state =
      s.context_search_state ∧
    (s.sort_context_tracks o).context_search_state.query =
      s.context_search_state.query ∧
    (s.sort_context_tracks o).context_search_state.tracks =
      s.context_search_state.tracks ∧
    (s.sort_context_tracks o).context_tracks_table_ui_state =
      s.context_tracks_table_ui_state ∧
    (s.sort_context_tracks o).playlists_list_ui_state =
      s.playlists_list_ui_state ∧
    (s.sort_context_tracks o).shortcuts_help_ui_state =
      s.shortcuts_help_ui_state :=
  ⟨rfl, rfl, rfl, rfl, rfl, rfl, rfl, rfl, rfl, rfl, rfl, rfl, rfl, rfl,
    rfl, rfl, rfl⟩

end SpotifyPlayer
